import Mathlib

/-!
Verification of the natural-language specification of
`intelmq/bots/outputs/elasticsearch/output.py` against a shallow embedding of
that module's code.

The embedding models:
* Python values reaching the bot (`Value`): strings, numbers, booleans,
  `None`, mappings (`dict`), lists;
* Python `dict` semantics as association lists with unique keys, insertion
  order, in-place update on key reassignment (`dinsert`), `pop` (`dpop`) and
  lookup (`dget`);
* Python `str.replace` (`strReplace`), left-to-right non-overlapping
  replacement of every occurrence;
* `replace_keys` (module-level function, lines 18-25 of the source);
* the per-field flattening loop of `ElasticsearchOutputBot.process`
  (lines 108-120), with the JSON decoder `json.loads` — an external
  capability of the standard library, not code of this module — abstracted
  as a function `String → Option Value` (`none` models the `ValueError` that
  the code catches);
* `ElasticsearchOutputBot.get_index` (lines 72-102), including a faithful
  model of `datetime.strptime(t, "%Y-%m-%dT%H:%M:%S+00:00").date().isoformat()`;
* the submit/acknowledge control flow at the end of `process`
  (lines 125-128), with the Elasticsearch client write modelled as a
  fallible external capability.
-/

namespace ElasticsearchOutput

/-- The Python values that can occur in an event dictionary: scalars
(string, number, boolean, `None`), mappings and lists. Numbers are modelled
as integers; nothing in the verified code inspects numeric values. -/
inductive Value where
  | str (s : String)
  | num (n : Int)
  | bool (b : Bool)
  | null
  | map (kvs : List (String × Value))
  | list (elems : List Value)

/-- A Python `dict` with string keys: an association list in insertion
order. Well-formed dicts have pairwise-distinct keys (`DictWF`). -/
abbrev Dict := List (String × Value)

/-- The keys of a dict, in order. -/
def dkeys (d : Dict) : List String := d.map Prod.fst

/-- Python dicts never hold the same key twice. -/
def DictWF (d : Dict) : Prop := (dkeys d).Nodup

/-- `d[k]` lookup returning `none` when the key is absent
(Python `dict.get(k, None)` / `k in d`). -/
def dget (d : Dict) (k : String) : Option Value :=
  match d with
  | [] => none
  | (k', v) :: rest => if k' = k then some v else dget rest k

/-- `d[k] = v`: Python dict assignment. If `k` is already present its value
is updated in place (keeping its position); otherwise the pair is appended. -/
def dinsert (k : String) (v : Value) (d : Dict) : Dict :=
  match d with
  | [] => [(k, v)]
  | (k', v') :: rest => if k' = k then (k', v) :: rest else (k', v') :: dinsert k v rest

/-- `d.pop(k)`: removes the entry for `k` (the code only pops keys that are
present). -/
def dpop (k : String) (d : Dict) : Dict :=
  match d with
  | [] => []
  | (k', v') :: rest => if k' = k then rest else (k', v') :: dpop k rest

/-- Building a dict by Python's `obj[k] = v` statements executed left to
right, starting from `{}` — the loop body of `replace_keys`. -/
def dictOfList (l : List (String × Value)) : Dict :=
  l.foldl (fun acc kv => dinsert kv.1 kv.2 acc) []

/-- Python `str.replace(old, new)` on character lists, for a non-empty
pattern `p :: ps`: scans left to right, replacing each (non-overlapping)
occurrence of the pattern. -/
def replaceAux (p : Char) (ps rep : List Char) : List Char → List Char
  | [] => []
  | c :: rest =>
    if c = p ∧ List.isPrefixOf ps rest then
      rep ++ replaceAux p ps rep (rest.drop ps.length)
    else
      c :: replaceAux p ps rep rest
termination_by l => l.length
decreasing_by
  · simp only [List.length_drop, List.length_cons]
    omega
  · simp only [List.length_cons]
    omega

/-- Python `str.replace(old, new)` for the empty pattern: `new` is inserted
before every character and at the end (`"ab".replace("", "-") = "-a-b-"`). -/
def replaceEmptyPat (rep : List Char) : List Char → List Char
  | [] => rep
  | c :: rest => rep ++ c :: replaceEmptyPat rep rest

/-- Python `s.replace(pat, rep)`. -/
def strReplace (s pat rep : String) : String :=
  match pat.data with
  | [] => ⟨replaceEmptyPat rep.data s.data⟩
  | p :: ps => ⟨replaceAux p ps rep.data s.data⟩

mutual

/-- `replace_keys(obj, key_char='.', replacement='_')` (source lines 18-25):
if `obj` is a mapping, build a fresh dict assigning
`key.replace(key_char, replacement) ↦ replace_keys(val)` for each entry in
order; every non-mapping (scalars and also lists) is returned unchanged. -/
def replace_keys (key_char replacement : String) : Value → Value
  | .map kvs => .map (dictOfList (replace_keys_list key_char replacement kvs))
  | obj => obj

/-- The entries `(key.replace(key_char, replacement), replace_keys(val))` of
the `for key, val in obj.items()` loop, in iteration order. -/
def replace_keys_list (key_char replacement : String) :
    List (String × Value) → List (String × Value)
  | [] => []
  | (k, v) :: rest =>
    (strReplace k key_char replacement, replace_keys key_char replacement v) ::
      replace_keys_list key_char replacement rest

end

/-- `replace_keys` applied to a top-level event dict (the call at source
lines 122-123, where `key_char` keeps its default `'.'`). -/
def replace_keys_dict (key_char replacement : String) (d : Dict) : Dict :=
  dictOfList (replace_keys_list key_char replacement d)

/-- The decode attempt in `process` (lines 111-115): only a `str` value is
fed to the decoder; a failed decode (`ValueError`, modelled by `none`) keeps
the original string. `json.loads` itself is an external standard-library
capability, so the decoder is a parameter `String → Option Value`. -/
def decodeStep (decode : String → Option Value) : Value → Value
  | .str s => match decode s with
    | some v => v
    | none => .str s
  | v => v

/-- One iteration of the flattening loop in `process` (lines 109-120) for a
single `field`: if the field is present and its (possibly decoded) value is
a mapping, assign `event_dict[field + '_' + key] = value` for each entry,
then `event_dict.pop(field)`; otherwise the dict is left unchanged. -/
def flattenField (decode : String → Option Value) (d : Dict) (field : String) : Dict :=
  match dget d field with
  | none => d
  | some val =>
    match decodeStep decode val with
    | .map kvs =>
        dpop field (kvs.foldl (fun acc kv => dinsert (field ++ "_" ++ kv.1) kv.2 acc) d)
    | _ => d

/-- The whole flattening loop: `for field in self.flatten_fields: ...`. -/
def flatten (decode : String → Option Value) (fields : List String) (d : Dict) : Dict :=
  fields.foldl (flattenField decode) d

/-! ### Model of `datetime.strptime(t, '%Y-%m-%dT%H:%M:%S+00:00').date().isoformat()`

CPython compiles the format to the regex
`\d\d\d\d - (1[0-2]|0[1-9]|[1-9]) - (3[01]|[1-2]\d|0[1-9]|[1-9]) T
(2[0-3]|[0-1]\d|\d) : ([0-5]\d|\d) : (6[0-1]|[0-5]\d|\d) \+00:00`
(whole string must match), then the `datetime` constructor validates the
day against the month length and rejects year 0 and leap seconds with
`ValueError`. Since every numeric field is followed by a non-digit literal,
the regex accepts exactly: a 1- or 2-digit run per field (4 for the year)
whose value lies in the validated range. -/

/-- Value of a decimal digit character. -/
def digitVal (c : Char) : Nat := c.toNat - 48

/-- Value of a list of decimal digit characters, most significant first. -/
def digitsToNat (ds : List Char) : Nat := ds.foldl (fun a c => a * 10 + digitVal c) 0

/-- Splits off the leading run of decimal digits. -/
def takeDigits : List Char → List Char × List Char
  | [] => ([], [])
  | c :: rest =>
    if c.isDigit then
      match takeDigits rest with
      | (ds, r) => (c :: ds, r)
    else ([], c :: rest)

/-- Parses one numeric field of the format: a run of 1 or 2 digits whose
value lies in `lo..hi` (the run length is forced by the following non-digit
literal, and the range by the directive regex plus `datetime` validation). -/
def parseNum (lo hi : Nat) (cs : List Char) : Option (Nat × List Char) :=
  match takeDigits cs with
  | (ds, rest) =>
    if ds.length = 1 ∨ ds.length = 2 then
      let v := digitsToNat ds
      if lo ≤ v ∧ v ≤ hi then some (v, rest) else none
    else none

/-- Consumes one literal character of the format. -/
def expectChar (c : Char) : List Char → Option (List Char)
  | [] => none
  | c' :: rest => if c' = c then some rest else none

/-- Gregorian leap-year rule used by `datetime`. -/
def isLeapYear (y : Nat) : Bool := (y % 4 == 0 && y % 100 != 0) || y % 400 == 0

/-- Length of a month as validated by the `datetime` constructor. -/
def daysInMonth (y m : Nat) : Nat :=
  if m = 2 then (if isLeapYear y then 29 else 28)
  else if m = 4 ∨ m = 6 ∨ m = 9 ∨ m = 11 then 30 else 31

/-- Two-digit zero-padded decimal rendering (`date.isoformat` fields). -/
def pad2 (n : Nat) : String := if n < 10 then "0" ++ toString n else toString n

/-- Four-digit zero-padded decimal rendering (`date.isoformat` year). -/
def pad4 (n : Nat) : String :=
  if n < 10 then "000" ++ toString n
  else if n < 100 then "00" ++ toString n
  else if n < 1000 then "0" ++ toString n
  else toString n

/-- The `THH:MM:SS+00:00` tail of the format: hour, minute and second
fields followed by the literal offset, consuming the whole remainder. The
second field is capped at 59 because the regex's leap seconds (60, 61) are
rejected by the `datetime` constructor with the same caught `ValueError`. -/
def matchesTimeTail (cs : List Char) : Bool :=
  match expectChar 'T' cs with
  | none => false
  | some r0 =>
    match parseNum 0 23 r0 with
    | none => false
    | some (_, r1) =>
      match expectChar ':' r1 with
      | none => false
      | some r2 =>
        match parseNum 0 59 r2 with
        | none => false
        | some (_, r3) =>
          match expectChar ':' r3 with
          | none => false
          | some r4 =>
            match parseNum 0 59 r4 with
            | none => false
            | some (_, r5) => r5 == ['+', '0', '0', ':', '0', '0']

/-- `datetime.strptime(s, '%Y-%m-%dT%H:%M:%S+00:00').date().isoformat()`,
returning `none` where Python raises `ValueError` (the year must be four
digits and at least 1, the day must exist in the parsed month). -/
def strptime_isodate (s : String) : Option String :=
  let cs := s.data
  let yds := cs.take 4
  if yds.length = 4 && yds.all Char.isDigit && 1 ≤ digitsToNat yds then
    let y := digitsToNat yds
    match expectChar '-' (cs.drop 4) with
    | none => none
    | some r1 =>
      match parseNum 1 12 r1 with
      | none => none
      | some (m, r2) =>
        match expectChar '-' r2 with
        | none => none
        | some r3 =>
          match parseNum 1 31 r3 with
          | none => none
          | some (d, r4) =>
            if d ≤ daysInMonth y m ∧ matchesTimeTail r4 then
              some (pad4 y ++ "-" ++ pad2 m ++ "-" ++ pad2 d)
            else none
  else none

/-- One candidate `t` of the loop in `get_index` (lines 88-95):
`datetime.strptime(t, ...)` raises `TypeError` when `t` is `None` (missing
key) or not a string, `ValueError` on a mismatch; both are caught and move
the loop on, leaving `event_date = None`. -/
def parseEventDate : Option Value → Option String
  | some (.str s) => strptime_isodate s
  | _ => none

/-- `ElasticsearchOutputBot.get_index(event_dict, default)` (lines 72-102):
with rotation, try `time_source` then `time_observation`, stopping at the
first successful parse; fall back to `default`; return
`'{}-{}'.format(self.elastic_index, event_date)`. Without rotation, return
`self.elastic_index`. -/
def get_index (rotate_index : Bool) (elastic_index : String)
    (event_dict : Dict) (default : String) : String :=
  if rotate_index then
    let event_date :=
      match parseEventDate (dget event_dict "time_source") with
      | some d => some d
      | none => parseEventDate (dget event_dict "time_observation")
    elastic_index ++ "-" ++ event_date.getD default
  else
    elastic_index

/-- The document/index pair handed to `self.es.index(...)` (lines 125-127). -/
structure Submission where
  index : String
  body : Dict

/-- The per-event transformation of `ElasticsearchOutputBot.process`
(lines 104-127): flatten the configured fields, sanitize keys with
`replace_keys` (with its default `key_char='.'` and the configured
`replacement_char`), and resolve the destination index, passing
`datetime.today().date().isoformat()` — here the parameter `today` — as the
default. -/
def process (decode : String → Option Value) (flatten_fields : List String)
    (replacement_char : String) (rotate_index : Bool) (elastic_index : String)
    (today : String) (event_dict : Dict) : Submission :=
  let d1 := flatten decode flatten_fields event_dict
  let d2 := replace_keys_dict "." replacement_char d1
  { index := get_index rotate_index elastic_index d2 today, body := d2 }

/-- Observable outcome of one `process` call, lines 125-128: which store
writes were issued (in order), whether `acknowledge_message()` ran, and the
exception, if any, that escaped `process`. -/
structure SinkOutcome where
  submitted : List Submission
  acked : Bool
  error : Option String

/-- Control flow of the tail of `process`: `self.es.index(...)` — a fallible
external store-write capability `store` — followed by
`self.acknowledge_message()` only if the write returned normally; an
exception from the write propagates and the acknowledgement never runs. -/
def process_run (decode : String → Option Value) (flatten_fields : List String)
    (replacement_char : String) (rotate_index : Bool) (elastic_index : String)
    (today : String) (store : String → Dict → Except String Unit)
    (event_dict : Dict) : SinkOutcome :=
  let sub := process decode flatten_fields replacement_char rotate_index
    elastic_index today event_dict
  match store sub.index sub.body with
  | .ok _ => { submitted := [sub], acked := true, error := none }
  | .error e => { submitted := [sub], acked := false, error := some e }

/-- Does a value carry a mapping? (`isinstance(val, Mapping)`). -/
def Value.isMap : Value → Bool
  | .map _ => true
  | _ => false

/-- Does the key `k` contain the character `c`? (test predicate for the
sanitization invariant). -/
def keyHasChar (c : Char) (k : String) : Bool := k.data.any (fun a => a == c)

mutual

/-- Does every mapping key, at every nesting depth — including keys of
mappings that occur inside lists — avoid the character `c`? This is the
sanitization invariant claimed for `replace_keys` output. -/
def allKeysClean (c : Char) : Value → Bool
  | .map kvs => allKeysCleanList c kvs
  | .list es => allKeysCleanElems c es
  | _ => true

/-- `allKeysClean` over the entries of a mapping. -/
def allKeysCleanList (c : Char) : List (String × Value) → Bool
  | [] => true
  | (k, v) :: rest => !keyHasChar c k && allKeysClean c v && allKeysCleanList c rest

/-- `allKeysClean` over the elements of a list. -/
def allKeysCleanElems (c : Char) : List Value → Bool
  | [] => true
  | v :: rest => allKeysClean c v && allKeysCleanElems c rest

end

mutual

/-- The values stored in a structure: the value itself for a non-mapping,
and recursively the values of every entry for a mapping. Keys do not
appear, so this is what "the collection of values" of a structure means. -/
def deepValues : Value → List Value
  | .map kvs => deepValuesList kvs
  | v => [v]

/-- `deepValues` over the entries of a mapping, in order. -/
def deepValuesList : List (String × Value) → List Value
  | [] => []
  | (_, v) :: rest => deepValues v ++ deepValuesList rest

end

/-- Are the strings in the list pairwise distinct? -/
def distinctKeys : List String → Bool
  | [] => true
  | k :: rest => !rest.contains k && distinctKeys rest

mutual

/-- No two keys of any mapping (reachable through mappings, which is as far
as `replace_keys` descends) become equal after replacement — the hypothesis
under which sanitization cannot drop values. -/
def noCollisions (key_char replacement : String) : Value → Bool
  | .map kvs =>
    distinctKeys (kvs.map (fun kv => strReplace kv.1 key_char replacement)) &&
      noCollisionsList key_char replacement kvs
  | _ => true

/-- `noCollisions` over the entries of a mapping. -/
def noCollisionsList (key_char replacement : String) : List (String × Value) → Bool
  | [] => true
  | (_, v) :: rest =>
    noCollisions key_char replacement v && noCollisionsList key_char replacement rest

end

/-! ### Dictionary lemmas -/

theorem dget_eq_none_of_not_mem {d : Dict} {k : String} (h : k ∉ dkeys d) :
    dget d k = none := by
  induction d with
  | nil => rfl
  | cons hd tl ih =>
    obtain ⟨a, b⟩ := hd
    simp only [dkeys, List.map_cons, List.mem_cons, not_or] at h
    simp only [dget]
    rw [if_neg (fun hc => h.1 hc.symm)]
    exact ih h.2

theorem dget_dinsert_self (d : Dict) (k : String) (v : Value) :
    dget (dinsert k v d) k = some v := by
  induction d with
  | nil => simp [dinsert, dget]
  | cons hd tl ih =>
    obtain ⟨a, b⟩ := hd
    by_cases hk : a = k
    · subst hk; simp [dinsert, dget]
    · simpa [dinsert, dget, hk] using ih

theorem dget_dinsert_ne (d : Dict) {k k' : String} (v : Value) (h : k ≠ k') :
    dget (dinsert k v d) k' = dget d k' := by
  induction d with
  | nil => simp [dinsert, dget, h]
  | cons hd tl ih =>
    obtain ⟨a, b⟩ := hd
    by_cases hk : a = k
    · subst hk; simp [dinsert, dget, h]
    · by_cases hk' : a = k'
      · simp [dinsert, dget, hk, hk', Ne.symm h]
      · simpa [dinsert, dget, hk, hk'] using ih

theorem mem_dkeys_dinsert {d : Dict} {k k' : String} {v : Value}
    (h : k' ∈ dkeys (dinsert k v d)) : k' ∈ dkeys d ∨ k' = k := by
  induction d with
  | nil => simpa [dinsert, dkeys] using h
  | cons hd tl ih =>
    obtain ⟨a, b⟩ := hd
    by_cases hk : a = k
    · subst hk
      simp [dinsert, dkeys] at h ⊢
      tauto
    · simp only [dinsert, if_neg hk, dkeys, List.map_cons, List.mem_cons] at h ⊢
      rcases h with h | h
      · exact Or.inl (Or.inl h)
      · rcases ih h with h' | h'
        · exact Or.inl (Or.inr h')
        · exact Or.inr h'

theorem DictWF_dinsert {d : Dict} (h : DictWF d) (k : String) (v : Value) :
    DictWF (dinsert k v d) := by
  induction d with
  | nil => simp [DictWF, dinsert, dkeys]
  | cons hd tl ih =>
    obtain ⟨a, b⟩ := hd
    simp only [DictWF, dkeys, List.map_cons, List.nodup_cons] at h
    by_cases hk : a = k
    · subst hk
      simpa [dinsert, DictWF, dkeys] using h
    · simp only [dinsert, if_neg hk, DictWF, dkeys, List.map_cons, List.nodup_cons]
      refine ⟨fun hmem => ?_, ih h.2⟩
      rcases mem_dkeys_dinsert hmem with h' | h'
      · exact h.1 h'
      · exact hk h'

theorem dget_dpop_ne (d : Dict) {k k' : String} (h : k ≠ k') :
    dget (dpop k d) k' = dget d k' := by
  induction d with
  | nil => rfl
  | cons hd tl ih =>
    obtain ⟨a, b⟩ := hd
    by_cases hk : a = k
    · subst hk; simp [dpop, dget, h]
    · by_cases hk' : a = k'
      · simp [dpop, dget, hk, hk', Ne.symm h]
      · simpa [dpop, dget, hk, hk'] using ih

theorem dget_dpop_self {d : Dict} (h : DictWF d) (k : String) :
    dget (dpop k d) k = none := by
  induction d with
  | nil => rfl
  | cons hd tl ih =>
    obtain ⟨a, b⟩ := hd
    simp only [DictWF, dkeys, List.map_cons, List.nodup_cons] at h
    by_cases hk : a = k
    · subst hk
      simp only [dpop, if_pos rfl]
      exact dget_eq_none_of_not_mem h.1
    · simp only [dpop, if_neg hk, dget]
      exact ih h.2

theorem dget_foldl_dinsert_of_notin (f : String → String) {key : String} :
    ∀ (kvs : List (String × Value)), (∀ kv ∈ kvs, f kv.1 ≠ key) → ∀ d : Dict,
      dget (kvs.foldl (fun acc kv => dinsert (f kv.1) kv.2 acc) d) key = dget d key := by
  intro kvs
  induction kvs with
  | nil => intro _ d; rfl
  | cons hd tl ih =>
    intro h d
    simp only [List.foldl_cons]
    rw [ih (fun kv hkv => h kv (List.mem_cons_of_mem _ hkv))]
    exact dget_dinsert_ne d hd.2 (h hd (List.mem_cons_self _ _))

theorem dget_foldl_dinsert_of_mem (f : String → String)
    (hf : ∀ a b, f a = f b → a = b) :
    ∀ (kvs : List (String × Value)), (kvs.map Prod.fst).Nodup →
      ∀ {k : String} {w : Value}, (k, w) ∈ kvs → ∀ d : Dict,
        dget (kvs.foldl (fun acc kv => dinsert (f kv.1) kv.2 acc) d) (f k) = some w := by
  intro kvs
  induction kvs with
  | nil => intro _ k w hmem; exact absurd hmem (List.not_mem_nil _)
  | cons hd tl ih =>
    intro hnd k w hmem d
    simp only [List.map_cons, List.nodup_cons] at hnd
    simp only [List.foldl_cons]
    rcases List.mem_cons.mp hmem with h | h
    · subst h
      have hne : ∀ kv ∈ tl, f kv.1 ≠ f k := by
        intro kv hkv hc
        have h1 : kv.1 = k := hf _ _ hc
        have h2 : kv.1 ∈ tl.map Prod.fst := List.mem_map_of_mem Prod.fst hkv
        rw [h1] at h2
        exact hnd.1 h2
      rw [dget_foldl_dinsert_of_notin f tl hne (dinsert (f (k, w).1) (k, w).2 d)]
      exact dget_dinsert_self d (f k) w
    · exact ih hnd.2 h (dinsert (f hd.1) hd.2 d)

theorem DictWF_foldl_dinsert (f : String → String) :
    ∀ (kvs : List (String × Value)) (d : Dict), DictWF d →
      DictWF (kvs.foldl (fun acc kv => dinsert (f kv.1) kv.2 acc) d) := by
  intro kvs
  induction kvs with
  | nil => intro d h; exact h
  | cons hd tl ih =>
    intro d h
    simp only [List.foldl_cons]
    exact ih (dinsert (f hd.1) hd.2 d) (DictWF_dinsert h (f hd.1) hd.2)

theorem dinsert_of_not_mem {d : Dict} {k : String} (h : k ∉ dkeys d) (v : Value) :
    dinsert k v d = d ++ [(k, v)] := by
  induction d with
  | nil => rfl
  | cons hd tl ih =>
    obtain ⟨a, b⟩ := hd
    simp only [dkeys, List.map_cons, List.mem_cons, not_or] at h
    simp only [dinsert]
    rw [if_neg (fun hc => h.1 hc.symm), ih h.2]
    rfl

theorem foldl_dinsert_eq_append :
    ∀ (l : List (String × Value)) (acc : Dict),
      (dkeys acc ++ l.map Prod.fst).Nodup →
      l.foldl (fun acc kv => dinsert kv.1 kv.2 acc) acc = acc ++ l := by
  intro l
  induction l with
  | nil => intro acc _; simp
  | cons hd tl ih =>
    intro acc h
    obtain ⟨a, b⟩ := hd
    have hk : a ∉ dkeys acc := by
      intro hmem
      rcases List.nodup_append.mp h with ⟨_, _, hdisj⟩
      exact hdisj hmem (by simp)
    have h2 : (dkeys (acc ++ [(a, b)]) ++ tl.map Prod.fst).Nodup := by
      simp only [dkeys, List.map_append, List.map_cons, List.map_nil] at h ⊢
      simpa [List.append_assoc, List.singleton_append] using h
    simp only [List.foldl_cons]
    rw [dinsert_of_not_mem hk b, ih (acc ++ [(a, b)]) h2, List.append_assoc]
    rfl

theorem dictOfList_eq_self {l : List (String × Value)} (h : (l.map Prod.fst).Nodup) :
    dictOfList l = l := by
  have h0 : (dkeys ([] : Dict) ++ l.map Prod.fst).Nodup := by simpa [dkeys] using h
  have := foldl_dinsert_eq_append l [] h0
  simpa [dictOfList] using this

/-! ### String key lemmas -/

theorem string_eq_of_data_eq {a b : String} (h : a.data = b.data) : a = b := by
  cases a; cases b; exact congrArg String.mk h

theorem flatKey_ne_field (field k : String) : field ++ "_" ++ k ≠ field := by
  intro h
  have hlen := congrArg String.length h
  rw [String.length_append, String.length_append] at hlen
  have h1 : ("_" : String).length = 1 := rfl
  omega

theorem flatKey_inj (field : String) {a b : String}
    (h : field ++ "_" ++ a = field ++ "_" ++ b) : a = b := by
  have hd := congrArg String.data h
  simp only [String.data_append, List.append_assoc] at hd
  exact string_eq_of_data_eq (List.append_cancel_left (List.append_cancel_left hd))

/-! ### Claim theorems -/

/-- C8: whenever rotation is disabled, `get_index` returns the configured
base index name unchanged, regardless of the event's content (including its
timestamp fields) and of the supplied default. -/
theorem get_index_no_rotation (event_dict : Dict) (elastic_index default : String) :
    get_index false elastic_index event_dict default = elastic_index := rfl

/-- C3: with rotation enabled, `get_index` tries `time_source` then
`time_observation` in that fixed order against the single fixed timestamp
format (modelled by `parseEventDate` / `strptime_isodate`); the first
successful parse determines the date suffix, a mismatch or missing field
moves on without error, and if neither candidate parses the result is
`elastic_index ++ "-" ++ default` exactly as supplied by the caller. -/
theorem get_index_rotation (event_dict : Dict) (elastic_index default : String) :
    (∀ s, parseEventDate (dget event_dict "time_source") = some s →
      get_index true elastic_index event_dict default = elastic_index ++ "-" ++ s) ∧
    (parseEventDate (dget event_dict "time_source") = none →
      ∀ s, parseEventDate (dget event_dict "time_observation") = some s →
        get_index true elastic_index event_dict default = elastic_index ++ "-" ++ s) ∧
    (parseEventDate (dget event_dict "time_source") = none →
      parseEventDate (dget event_dict "time_observation") = none →
      get_index true elastic_index event_dict default = elastic_index ++ "-" ++ default) := by
  refine ⟨?_, ?_, ?_⟩
  · intro s hs
    simp [get_index, hs]
  · intro h1 s hs
    simp [get_index, h1, hs]
  · intro h1 h2
    simp [get_index, h1, h2]

/-- Witness for C3: a parseable `time_source` yields its date suffix, and an
unparseable one falls back to the caller-supplied default. -/
theorem get_index_rotation_witness :
    get_index true "intelmq" [("time_source", Value.str "2023-05-01T00:00:00+00:00")]
      "unknown-date" = "intelmq-2023-05-01" ∧
    get_index true "intelmq" [("time_source", Value.str "not a timestamp")]
      "unknown-date" = "intelmq-unknown-date" := by
  constructor
  · rw [(get_index_rotation [("time_source", Value.str "2023-05-01T00:00:00+00:00")]
      "intelmq" "unknown-date").1 "2023-05-01" (by decide)]
    decide
  · rw [(get_index_rotation [("time_source", Value.str "not a timestamp")]
      "intelmq" "unknown-date").2.2 (by decide) (by decide)]
    decide

/-- C4: for every well-formed event dict in which `field` is present with a
value that is a mapping (possibly after decoding a textual value), one pass
of the flattening loop removes `field` and adds one top-level entry
`field ++ "_" ++ subkey` carrying each sub-key's value — silently
overwriting any pre-existing top-level key of the same synthesized name
(last write wins, no error) — and leaves every other key unchanged.
(`flatten` applies `flattenField` to each configured field in order.) -/
theorem flatten_mapping_field (decode : String → Option Value) (d : Dict)
    (field : String) (v : Value) (kvs : List (String × Value))
    (hwf : DictWF d) (hv : dget d field = some v)
    (hm : decodeStep decode v = .map kvs) (hkv : (kvs.map Prod.fst).Nodup) :
    dget (flattenField decode d field) field = none ∧
    (∀ k w, (k, w) ∈ kvs →
      dget (flattenField decode d field) (field ++ "_" ++ k) = some w) ∧
    (∀ k', k' ≠ field → (∀ kv ∈ kvs, k' ≠ field ++ "_" ++ kv.1) →
      dget (flattenField decode d field) k' = dget d k') := by
  have hff : flattenField decode d field =
      dpop field (kvs.foldl (fun acc kv => dinsert (field ++ "_" ++ kv.1) kv.2 acc) d) := by
    simp only [flattenField, hv, hm]
  refine ⟨?_, ?_, ?_⟩
  · rw [hff]
    exact dget_dpop_self
      (DictWF_foldl_dinsert (fun k => field ++ "_" ++ k) kvs d hwf) field
  · intro k w hmem
    rw [hff, dget_dpop_ne _ (Ne.symm (flatKey_ne_field field k))]
    exact dget_foldl_dinsert_of_mem (fun k => field ++ "_" ++ k)
      (fun a b h => flatKey_inj field h) kvs hkv hmem d
  · intro k' hne hnot
    rw [hff, dget_dpop_ne _ (Ne.symm hne)]
    exact dget_foldl_dinsert_of_notin (fun k => field ++ "_" ++ k) kvs
      (fun kv hkv hc => hnot kv hkv hc.symm) d

/-- Witness for C4: flattening `{"extra": {"a": 1}, "extra_a": 7}` removes
`extra`, and the flattened entry silently overwrites the pre-existing
`extra_a` key. -/
theorem flatten_mapping_field_witness :
    dget (flattenField (fun _ => none)
        [("extra", Value.map [("a", Value.num 1)]), ("extra_a", Value.num 7)] "extra")
      "extra" = none ∧
    dget (flattenField (fun _ => none)
        [("extra", Value.map [("a", Value.num 1)]), ("extra_a", Value.num 7)] "extra")
      "extra_a" = some (Value.num 1) := by
  have h := flatten_mapping_field (fun _ => none)
    [("extra", Value.map [("a", Value.num 1)]), ("extra_a", Value.num 7)]
    "extra" (Value.map [("a", Value.num 1)]) [("a", Value.num 1)]
    (by simp [DictWF, dkeys]) (by simp [dget]) rfl (by simp)
  refine ⟨h.1, ?_⟩
  have h2 := h.2.1 "a" (Value.num 1) (by simp)
  have he : ("extra" ++ "_" ++ "a" : String) = "extra_a" := rfl
  rwa [he] at h2

/-- C5: for every event dict in which `field` is present but its value —
after the optional decode attempt — is not a mapping, the flattening pass
leaves the dict completely untouched; in particular a textual value that
fails to decode keeps its original key and value, and no error propagates
(the embedding is a total function, so a decode failure, modelled by the
decoder returning `none`, cannot raise). -/
theorem flatten_non_mapping_field (decode : String → Option Value) (d : Dict)
    (field : String) (v : Value) (hv : dget d field = some v)
    (hm : (decodeStep decode v).isMap = false) :
    flattenField decode d field = d := by
  simp only [flattenField, hv]
  cases hdec : decodeStep decode v with
  | map kvs => rw [hdec] at hm; simp [Value.isMap] at hm
  | str s => rfl
  | num n => rfl
  | bool b => rfl
  | null => rfl
  | list es => rfl

/-- Witness for C5: a field whose textual value fails to decode
(`decode = fun _ => none`, the always-failing decoder) is left untouched
under its original name with its original value. -/
theorem flatten_non_mapping_field_witness :
    flattenField (fun _ => none) [("extra", Value.str "not json")] "extra"
      = [("extra", Value.str "not json")] :=
  flatten_non_mapping_field (fun _ => none) [("extra", Value.str "not json")]
    "extra" (Value.str "not json") (by simp [dget]) rfl

/-- C10: for every well-formed event dict in which `field` is present with a
value that is (possibly after decoding) an empty mapping, the flattening
pass removes the field and adds no replacement entries: the result is
exactly the dict with `field` popped, the field is absent from it, and
every other key is unchanged. -/
theorem flatten_empty_mapping_field (decode : String → Option Value) (d : Dict)
    (field : String) (v : Value) (hwf : DictWF d)
    (hv : dget d field = some v) (hm : decodeStep decode v = .map []) :
    flattenField decode d field = dpop field d ∧
    dget (flattenField decode d field) field = none ∧
    (∀ k', k' ≠ field → dget (flattenField decode d field) k' = dget d k') := by
  have hff : flattenField decode d field = dpop field d := by
    simp only [flattenField, hv, hm, List.foldl_nil]
  refine ⟨hff, ?_, ?_⟩
  · rw [hff]
    exact dget_dpop_self hwf field
  · intro k' h
    rw [hff]
    exact dget_dpop_ne d (Ne.symm h)

/-- Witness for C10: flattening `{"extra": {}, "x": 5}` yields `{"x": 5}` —
no entry records that `extra` existed. -/
theorem flatten_empty_mapping_field_witness :
    flattenField (fun _ => none) [("extra", Value.map []), ("x", Value.num 5)] "extra"
      = [("x", Value.num 5)] := by
  rw [(flatten_empty_mapping_field (fun _ => none)
    [("extra", Value.map []), ("x", Value.num 5)] "extra" (Value.map [])
    (by simp [DictWF, dkeys]) (by simp [dget]) rfl).1]
  simp [dpop]

/-- C6: for every processed event, the acknowledgement runs if and only if
the store write succeeds; on a store error the event is not acknowledged and
the error surfaces, and the sink issues exactly one store write per event —
no retry of its own. -/
theorem submit_ack_iff (decode : String → Option Value)
    (flatten_fields : List String) (replacement_char : String)
    (rotate_index : Bool) (elastic_index today : String)
    (store : String → Dict → Except String Unit) (event_dict : Dict) :
    (process_run decode flatten_fields replacement_char rotate_index
        elastic_index today store event_dict).submitted
      = [process decode flatten_fields replacement_char rotate_index
          elastic_index today event_dict] ∧
    ((process_run decode flatten_fields replacement_char rotate_index
        elastic_index today store event_dict).acked = true ↔
      store (process decode flatten_fields replacement_char rotate_index
          elastic_index today event_dict).index
        (process decode flatten_fields replacement_char rotate_index
          elastic_index today event_dict).body = .ok ()) ∧
    (∀ e, store (process decode flatten_fields replacement_char rotate_index
          elastic_index today event_dict).index
        (process decode flatten_fields replacement_char rotate_index
          elastic_index today event_dict).body = .error e →
      (process_run decode flatten_fields replacement_char rotate_index
          elastic_index today store event_dict).acked = false ∧
      (process_run decode flatten_fields replacement_char rotate_index
          elastic_index today store event_dict).error = some e) := by
  cases h : store (process decode flatten_fields replacement_char rotate_index
      elastic_index today event_dict).index
      (process decode flatten_fields replacement_char rotate_index
        elastic_index today event_dict).body with
  | ok u =>
    cases u
    refine ⟨?_, ?_, ?_⟩
    · simp [process_run, h]
    · simp [process_run, h]
    · intro e he
      exact absurd he (by simp)
  | error e =>
    refine ⟨?_, ?_, ?_⟩
    · simp [process_run, h]
    · simp [process_run, h]
    · intro e' he
      simp only [Except.error.injEq] at he
      subst he
      simp [process_run, h]

/-- Witness for C6: with a store that fails, the event is not acknowledged
and the error surfaces; with a store that succeeds, it is acknowledged. -/
theorem submit_ack_iff_witness :
    (process_run (fun _ => none) ["extra"] "_" false "intelmq" "2023-05-01"
        (fun _ _ => Except.error "connection refused") [("x", Value.num 1)]).acked
      = false ∧
    (process_run (fun _ => none) ["extra"] "_" false "intelmq" "2023-05-01"
        (fun _ _ => Except.error "connection refused") [("x", Value.num 1)]).error
      = some "connection refused" ∧
    (process_run (fun _ => none) ["extra"] "_" false "intelmq" "2023-05-01"
        (fun _ _ => Except.ok ()) [("x", Value.num 1)]).acked = true := by
  have h1 := (submit_ack_iff (fun _ => none) ["extra"] "_" false "intelmq" "2023-05-01"
    (fun _ _ => Except.error "connection refused") [("x", Value.num 1)]).2.2
    "connection refused" rfl
  have h2 := (submit_ack_iff (fun _ => none) ["extra"] "_" false "intelmq" "2023-05-01"
    (fun _ _ => Except.ok ()) [("x", Value.num 1)]).2.1
  exact ⟨h1.1, h1.2, h2.mpr rfl⟩

/-! ### Value preservation under sanitization -/

theorem distinctKeys_nodup : ∀ {l : List String}, distinctKeys l = true → l.Nodup := by
  intro l
  induction l with
  | nil => intro _; exact List.nodup_nil
  | cons k rest ih =>
    intro h
    simp only [distinctKeys, Bool.and_eq_true, Bool.not_eq_true'] at h
    refine List.nodup_cons.mpr ⟨?_, ih h.2⟩
    intro hmem
    have := h.1
    rw [List.contains, List.elem_eq_mem] at this
    simp [hmem] at this

theorem replace_keys_list_map_fst (c r : String) :
    ∀ kvs : List (String × Value),
      (replace_keys_list c r kvs).map Prod.fst = kvs.map (fun kv => strReplace kv.1 c r) := by
  intro kvs
  induction kvs with
  | nil => rfl
  | cons hd tl ih =>
    obtain ⟨k, v⟩ := hd
    simp only [replace_keys_list, List.map_cons, ih]

mutual

theorem deepValues_replace_keys_aux (c r : String) :
    ∀ v : Value, noCollisions c r v = true →
      deepValues (replace_keys c r v) = deepValues v
  | .str s, _ => rfl
  | .num n, _ => rfl
  | .bool b, _ => rfl
  | .null, _ => rfl
  | .list es, _ => rfl
  | .map kvs, h => by
    simp only [noCollisions, Bool.and_eq_true] at h
    have hnd : ((replace_keys_list c r kvs).map Prod.fst).Nodup := by
      rw [replace_keys_list_map_fst]
      exact distinctKeys_nodup h.1
    simp only [replace_keys, deepValues]
    rw [dictOfList_eq_self hnd]
    exact deepValuesList_replace_keys_aux c r kvs h.2

theorem deepValuesList_replace_keys_aux (c r : String) :
    ∀ kvs : List (String × Value), noCollisionsList c r kvs = true →
      deepValuesList (replace_keys_list c r kvs) = deepValuesList kvs
  | [], _ => rfl
  | (k, v) :: rest, h => by
    simp only [noCollisionsList, Bool.and_eq_true] at h
    simp only [replace_keys_list, deepValuesList]
    rw [deepValues_replace_keys_aux c r v h.1,
      deepValuesList_replace_keys_aux c r rest h.2]

end

/-! ### Claim theorems for sanitization -/

/-- C1 (code bug): `replace_keys` returns every non-mapping — lists
included — unchanged, so it never descends into list elements. For the
mapping `{"a": [{"b.c": 1}]}` with illegal character `'.'` and replacement
`'_'` the result is the input itself, and the key `"b.c"` of the mapping
inside the list still contains the illegal character, contradicting the
claimed invariant (and the spec's design note that requires recursion into
list elements). -/
theorem replace_keys_misses_lists :
    replace_keys "." "_" (.map [("a", .list [.map [("b.c", .num 1)]])])
      = .map [("a", .list [.map [("b.c", .num 1)]])] ∧
    allKeysClean '.' (replace_keys "." "_"
      (.map [("a", .list [.map [("b.c", .num 1)]])])) = false := by
  constructor
  · simp [replace_keys, replace_keys_list, dictOfList, dinsert, strReplace, replaceAux]
  · simp [replace_keys, replace_keys_list, dictOfList, dinsert, strReplace, replaceAux,
      allKeysClean, allKeysCleanList, allKeysCleanElems, keyHasChar]

/-- C7 counterexample: sanitizing `{"a.b": 1, "a_b": 2}` with illegal `'.'`
and replacement `'_'` makes the two keys collide; the assignment for the
later key overwrites the earlier entry, the value `1` is dropped, and the
collection of values shrinks from two elements to one — so `sanitize` does
not always preserve the values. -/
theorem replace_keys_drops_value_on_collision :
    replace_keys "." "_" (.map [("a.b", .num 1), ("a_b", .num 2)])
      = .map [("a_b", .num 2)] ∧
    (deepValues (replace_keys "." "_" (.map [("a.b", .num 1), ("a_b", .num 2)]))).length = 1 ∧
    (deepValues (.map [("a.b", .num 1), ("a_b", .num 2)])).length = 2 := by
  refine ⟨?_, ?_, ?_⟩
  · simp [replace_keys, replace_keys_list, dictOfList, dinsert, strReplace, replaceAux]
  · simp [replace_keys, replace_keys_list, dictOfList, dinsert, strReplace, replaceAux,
      deepValues, deepValuesList]
  · simp [deepValues, deepValuesList]

/-- C7 (amended): provided no two keys of any mapping reachable through
mappings become equal after replacement (`noCollisions`), `replace_keys`
changes only keys, never values: the collection of values at every nesting
level is unchanged. Without that hypothesis colliding keys are overwritten
and their values dropped (see the counterexample). -/
theorem replace_keys_preserves_values (c r : String) (v : Value)
    (h : noCollisions c r v = true) :
    deepValues (replace_keys c r v) = deepValues v :=
  deepValues_replace_keys_aux c r v h

/-- Witness for C7 (amended): a mapping whose sanitized keys stay distinct
keeps its values unchanged. -/
theorem replace_keys_preserves_values_witness :
    noCollisions "." "_" (.map [("a.b", .num 1), ("c", .map [("d.e", .num 2)])]) = true ∧
    deepValues (replace_keys "." "_"
        (.map [("a.b", .num 1), ("c", .map [("d.e", .num 2)])]))
      = deepValues (.map [("a.b", .num 1), ("c", .map [("d.e", .num 2)])]) := by
  have hnc : noCollisions "." "_"
      (.map [("a.b", .num 1), ("c", .map [("d.e", .num 2)])]) = true := by
    simp [noCollisions, noCollisionsList, distinctKeys, strReplace, replaceAux,
      List.contains, List.elem_eq_mem]
  exact ⟨hnc, replace_keys_preserves_values "." "_" _ hnc⟩

/-! ### Key shapes produced by sanitizing dotted timestamp keys -/

theorem strReplace_time_source_data (r : String) :
    (strReplace "time.source" "." r).data
      = ['t', 'i', 'm', 'e'] ++ r.data ++ ['s', 'o', 'u', 'r', 'c', 'e'] := by
  simp [strReplace, replaceAux, List.isPrefixOf]

theorem strReplace_time_observation_data (r : String) :
    (strReplace "time.observation" "." r).data
      = ['t', 'i', 'm', 'e'] ++ r.data
        ++ ['o', 'b', 's', 'e', 'r', 'v', 'a', 't', 'i', 'o', 'n'] := by
  simp [strReplace, replaceAux, List.isPrefixOf]

theorem ts_key_ne_time_source {r : String} (hr : r ≠ "_") :
    strReplace "time.source" "." r ≠ "time_source" := by
  intro h
  apply hr
  have hd := congrArg String.data h
  rw [strReplace_time_source_data] at hd
  have hts : ("time_source" : String).data
      = ['t', 'i', 'm', 'e'] ++ ['_'] ++ ['s', 'o', 'u', 'r', 'c', 'e'] := by decide
  rw [hts] at hd
  simp only [List.append_assoc] at hd
  have h2 := List.append_cancel_left hd
  have h3 := List.append_cancel_right h2
  exact string_eq_of_data_eq (by rw [h3])

theorem ts_key_ne_time_observation (r : String) :
    strReplace "time.source" "." r ≠ "time_observation" := by
  intro h
  have hd := congrArg (fun s : String => s.data.reverse) h
  simp only [strReplace_time_source_data] at hd
  simp [List.reverse_append] at hd

theorem to_key_ne_time_source (r : String) :
    strReplace "time.observation" "." r ≠ "time_source" := by
  intro h
  have hd := congrArg (fun s : String => s.data.reverse) h
  simp only [strReplace_time_observation_data] at hd
  simp [List.reverse_append] at hd

theorem to_key_ne_time_observation {r : String} (hr : r ≠ "_") :
    strReplace "time.observation" "." r ≠ "time_observation" := by
  intro h
  apply hr
  have hd := congrArg String.data h
  rw [strReplace_time_observation_data] at hd
  have hto : ("time_observation" : String).data
      = ['t', 'i', 'm', 'e'] ++ ['_']
        ++ ['o', 'b', 's', 'e', 'r', 'v', 'a', 't', 'i', 'o', 'n'] := by decide
  rw [hto] at hd
  simp only [List.append_assoc] at hd
  have h2 := List.append_cancel_left hd
  have h3 := List.append_cancel_right h2
  exact string_eq_of_data_eq (by rw [h3])

theorem mem_dkeys_foldl_dinsert :
    ∀ (l : List (String × Value)) (acc : Dict) {k : String},
      k ∈ dkeys (l.foldl (fun acc kv => dinsert kv.1 kv.2 acc) acc) →
      k ∈ dkeys acc ∨ k ∈ l.map Prod.fst := by
  intro l
  induction l with
  | nil => intro acc k h; exact Or.inl h
  | cons hd tl ih =>
    intro acc k h
    simp only [List.foldl_cons] at h
    rcases ih (dinsert hd.1 hd.2 acc) h with h' | h'
    · rcases mem_dkeys_dinsert h' with h'' | h''
      · exact Or.inl h''
      · exact Or.inr (by simp [h''])
    · exact Or.inr (by simp [h'])

theorem mem_dkeys_dictOfList {l : List (String × Value)} {k : String}
    (h : k ∈ dkeys (dictOfList l)) : k ∈ l.map Prod.fst := by
  rcases mem_dkeys_foldl_dinsert l [] h with h' | h'
  · simp [dkeys] at h'
  · exact h'

/-! ### End-to-end claim theorems -/

/-- C2 counterexample: for the event
`{"extra": {"x.y": 1}, "time_source": "2023-05-01T00:00:00+00:00"}` with
rotation on, illegal `'.'` and replacement `'_'`, the pipeline does submit
to collection `"intelmq-2023-05-01"`, but the submitted document is not
`{"extra_x_y": 1}`: it still carries the `time_source` field (two entries,
not one), so the claim's "exactly the document `{"extra_x_y": 1}`" is
false. -/
theorem process_end_to_end_counterexample :
    (process (fun _ => none) ["extra"] "_" true "intelmq" "1970-01-01"
        [("extra", Value.map [("x.y", Value.num 1)]),
         ("time_source", Value.str "2023-05-01T00:00:00+00:00")]).index
      = "intelmq-2023-05-01" ∧
    dget (process (fun _ => none) ["extra"] "_" true "intelmq" "1970-01-01"
        [("extra", Value.map [("x.y", Value.num 1)]),
         ("time_source", Value.str "2023-05-01T00:00:00+00:00")]).body "time_source"
      = some (Value.str "2023-05-01T00:00:00+00:00") ∧
    (process (fun _ => none) ["extra"] "_" true "intelmq" "1970-01-01"
        [("extra", Value.map [("x.y", Value.num 1)]),
         ("time_source", Value.str "2023-05-01T00:00:00+00:00")]).body
      ≠ [("extra_x_y", Value.num 1)] := by
  have hp : process (fun _ => none) ["extra"] "_" true "intelmq" "1970-01-01"
      [("extra", Value.map [("x.y", Value.num 1)]),
       ("time_source", Value.str "2023-05-01T00:00:00+00:00")]
      = { index := "intelmq-2023-05-01",
          body := [("time_source", Value.str "2023-05-01T00:00:00+00:00"),
                   ("extra_x_y", Value.num 1)] } := by
    have hbody : replace_keys_dict "." "_" (flatten (fun _ => none) ["extra"]
        [("extra", Value.map [("x.y", Value.num 1)]),
         ("time_source", Value.str "2023-05-01T00:00:00+00:00")])
        = [("time_source", Value.str "2023-05-01T00:00:00+00:00"),
           ("extra_x_y", Value.num 1)] := by
      simp [flatten, flattenField, decodeStep, dget, dinsert, dpop,
        replace_keys_dict, replace_keys_list, replace_keys, dictOfList,
        strReplace, replaceAux]
    have hidx : parseEventDate (dget
        [("time_source", Value.str "2023-05-01T00:00:00+00:00"),
         ("extra_x_y", Value.num 1)] "time_source") = some "2023-05-01" := by decide
    simp only [process, hbody]
    simp [get_index, hidx]
  rw [hp]
  refine ⟨rfl, by simp [dget], ?_⟩
  intro h
  have := congrArg List.length h
  simp at this

/-- C2 (amended): for the event
`{"extra": {"x.y": 1}, "time_source": "2023-05-01T00:00:00+00:00"}` with
rotation on, illegal `'.'` and replacement `'_'`, the full per-event
pipeline (flatten, then sanitize, then resolve index) submits exactly the
document `{"time_source": "2023-05-01T00:00:00+00:00", "extra_x_y": 1}` to
the collection `"intelmq-2023-05-01"`, for every decoder and every current
date (neither is consulted on this event). -/
theorem process_end_to_end (decode : String → Option Value) (today : String) :
    process decode ["extra"] "_" true "intelmq" today
        [("extra", Value.map [("x.y", Value.num 1)]),
         ("time_source", Value.str "2023-05-01T00:00:00+00:00")]
      = { index := "intelmq-2023-05-01",
          body := [("time_source", Value.str "2023-05-01T00:00:00+00:00"),
                   ("extra_x_y", Value.num 1)] } := by
  have hbody : replace_keys_dict "." "_" (flatten decode ["extra"]
      [("extra", Value.map [("x.y", Value.num 1)]),
       ("time_source", Value.str "2023-05-01T00:00:00+00:00")])
      = [("time_source", Value.str "2023-05-01T00:00:00+00:00"),
         ("extra_x_y", Value.num 1)] := by
    simp [flatten, flattenField, decodeStep, dget, dinsert, dpop,
      replace_keys_dict, replace_keys_list, replace_keys, dictOfList,
      strReplace, replaceAux]
  have hidx : parseEventDate (dget
      [("time_source", Value.str "2023-05-01T00:00:00+00:00"),
       ("extra_x_y", Value.num 1)] "time_source") = some "2023-05-01" := by decide
  simp only [process, hbody]
  simp [get_index, hidx]

/-- C9: index resolution reads the literal keys `time_source` and
`time_observation` from the document after sanitization. For every
replacement character other than `"_"`, an event whose timestamp keys are
the original dotted `time.source` / `time.observation` never matches those
literal keys — whatever the timestamp values are — so rotation falls back to
the caller-supplied default suffix; with the default replacement `"_"` the
sanitized key is found and a parseable `time_source` determines the date. -/
theorem index_keys_read_after_sanitization (decode : String → Option Value)
    (r ts tov idx today : String) :
    (r ≠ "_" →
      (process decode ["extra"] r true idx today
          [("time.source", Value.str ts), ("time.observation", Value.str tov)]).index
        = idx ++ "-" ++ today) ∧
    (process decode ["extra"] "_" true idx today
        [("time.source", Value.str "2023-05-01T00:00:00+00:00"),
         ("time.observation", Value.str tov)]).index
      = idx ++ "-" ++ "2023-05-01" := by
  constructor
  · intro hr
    have hfl : flatten decode ["extra"]
        [("time.source", Value.str ts), ("time.observation", Value.str tov)]
        = [("time.source", Value.str ts), ("time.observation", Value.str tov)] := by
      simp [flatten, flattenField, dget]
    have hlist : replace_keys_list "." r
        [("time.source", Value.str ts), ("time.observation", Value.str tov)]
        = [(strReplace "time.source" "." r, Value.str ts),
           (strReplace "time.observation" "." r, Value.str tov)] := by
      simp [replace_keys_list, replace_keys]
    have hget : ∀ key : String, key ≠ strReplace "time.source" "." r →
        key ≠ strReplace "time.observation" "." r →
        dget (replace_keys_dict "." r
          [("time.source", Value.str ts), ("time.observation", Value.str tov)]) key
          = none := by
      intro key hk1 hk2
      apply dget_eq_none_of_not_mem
      intro hmem
      rw [replace_keys_dict, hlist] at hmem
      have hm := mem_dkeys_dictOfList hmem
      simp only [List.map_cons, List.map_nil, List.mem_cons,
        List.not_mem_nil, or_false] at hm
      rcases hm with h | h
      · exact hk1 h
      · exact hk2 h
    have h1 := hget "time_source" (fun h => ts_key_ne_time_source hr h.symm)
      (fun h => to_key_ne_time_source r h.symm)
    have h2 := hget "time_observation" (fun h => ts_key_ne_time_observation r h.symm)
      (fun h => to_key_ne_time_observation hr h.symm)
    simp only [process, hfl]
    simp [get_index, parseEventDate, h1, h2]
  · have hfl : flatten decode ["extra"]
        [("time.source", Value.str "2023-05-01T00:00:00+00:00"),
         ("time.observation", Value.str tov)]
        = [("time.source", Value.str "2023-05-01T00:00:00+00:00"),
           ("time.observation", Value.str tov)] := by
      simp [flatten, flattenField, dget]
    have hbody : replace_keys_dict "." "_"
        [("time.source", Value.str "2023-05-01T00:00:00+00:00"),
         ("time.observation", Value.str tov)]
        = [("time_source", Value.str "2023-05-01T00:00:00+00:00"),
           ("time_observation", Value.str tov)] := by
      simp [replace_keys_dict, replace_keys_list, replace_keys, dictOfList,
        dinsert, strReplace, replaceAux]
    have hidx : parseEventDate (dget
        [("time_source", Value.str "2023-05-01T00:00:00+00:00"),
         ("time_observation", Value.str tov)] "time_source") = some "2023-05-01" := by
      simp only [dget]
      norm_num
      decide
    simp only [process, hfl, hbody]
    simp [get_index, hidx]

/-- Witness for C9: with replacement `'-'`, the event whose timestamp keys
are dotted ends up in the default-suffix collection even though its
`time.source` value is a perfectly parseable timestamp. -/
theorem index_keys_read_after_sanitization_witness :
    (process (fun _ => none) ["extra"] "-" true "intelmq" "1970-01-01"
        [("time.source", Value.str "2023-05-01T00:00:00+00:00"),
         ("time.observation", Value.str "2023-05-01T00:00:00+00:00")]).index
      = "intelmq-1970-01-01" := by
  rw [(index_keys_read_after_sanitization (fun _ => none) "-"
    "2023-05-01T00:00:00+00:00" "2023-05-01T00:00:00+00:00" "intelmq"
    "1970-01-01").1 (by decide)]
  decide

end ElasticsearchOutput
